import Mathlib

/-
  Shallow embedding of `iced_divider` (src/src/divider.rs).

  The widget's numeric type is `f32`; we model it with `ℚ` and exact
  arithmetic.  `f32::round` (round half away from zero) is modelled by
  `rustRound`, and `f32::EPSILON` (2⁻²³) by `EPSILON`.  The host-supplied
  `on_change` closure is modelled by recording the published
  `(index, value)` payload as a `Msg.change`; the optional `on_release`
  message is modelled by a `Bool` flag plus a `Msg.release` payload.
-/

namespace IcedDivider

/-- A 2D point (`iced::Point`), coordinates modelled as rationals. -/
structure Point where
  x : ℚ
  y : ℚ
deriving DecidableEq, Repr

/-- A rectangle (`iced::Rectangle`): origin plus extents. -/
@[ext]
structure Rectangle where
  x : ℚ
  y : ℚ
  width : ℚ
  height : ℚ
deriving DecidableEq, Repr

/-- Membership test `iced::Rectangle::contains` (half-open on the far sides). -/
def Rectangle.contains (r : Rectangle) (p : Point) : Bool :=
  decide (r.x ≤ p.x) && decide (p.x < r.x + r.width) &&
  decide (r.y ≤ p.y) && decide (p.y < r.y + r.height)

/-- Model of `mouse::Cursor` as an optional position.
`Cursor::position_over` returns the position when it lies inside the
rectangle. -/
def position_over (cursor : Option Point) (r : Rectangle) : Option Point :=
  match cursor with
  | some p => if r.contains p then some p else none
  | none => none

/-- The drag direction of the divider (`Direction` in the source). -/
inductive Direction where
  | Horizontal
  | Vertical
deriving DecidableEq, Repr

/-- Messages observable by the host: a change notification carrying the
`(index, new_value)` payload passed to `on_change`, or the `on_release`
message. -/
inductive Msg where
  | change (index : ℕ) (value : ℚ)
  | release
deriving DecidableEq, Repr

/-- Returns `true` exactly for change notifications. -/
def Msg.isChange : Msg → Bool
  | .change _ _ => true
  | .release => false

/-- The `Divider` widget configuration (fields of `struct Divider`,
omitting the purely visual `width`/`height` layout hints and the style
class, which no claim touches).  `on_release : Bool` records whether a
release message is configured (`Option<Message>` in the source). -/
structure Divider where
  index : ℕ
  value : ℚ
  range_start : ℚ
  range_end : ℚ
  handle_width : ℚ
  handle_height : ℚ
  step : ℚ
  on_release : Bool
  direction : Direction
deriving DecidableEq, Repr

/-- Constructor `Divider::new`: clamps the value into the range with two successive
conditionals (first raise to `range.start`, then lower to `range.end`),
and sets the defaults `step = 1.0`, no release message, horizontal. -/
def Divider.new (index : ℕ) (value : ℚ) (range_start range_end : ℚ)
    (handle_width handle_height : ℚ) : Divider :=
  let value := if value ≥ range_start then value else range_start
  let value := if value ≤ range_end then value else range_end
  { index := index
    value := value
    range_start := range_start
    range_end := range_end
    handle_width := handle_width
    handle_height := handle_height
    step := 1
    on_release := false
    direction := Direction.Horizontal }

/-- Builder `Divider::step`: stores the given step unchanged (no guard). -/
def Divider.set_step (d : Divider) (s : ℚ) : Divider :=
  { d with step := s }

/-- Builder `Divider::on_release`: configures the release message. -/
def Divider.set_on_release (d : Divider) : Divider :=
  { d with on_release := true }

/-- Builder `Divider::direction`. -/
def Divider.set_direction (d : Divider) (dir : Direction) : Divider :=
  { d with direction := dir }

/-- Model of `f32::EPSILON` (machine epsilon of the value type), exactly 2⁻²³. -/
def EPSILON : ℚ := 1 / 2 ^ 23

/-- Model of `f32::round`: round to nearest, ties away from zero.  (Mathlib's
`round` rounds ties up, which agrees on non-negative arguments.) -/
def rustRound (q : ℚ) : ℤ :=
  if q < 0 then -round (-q) else round q

/-- The `locate` closure of `on_event`: maps a cursor position to a value.
Coordinates at or before the track's near edge give `range.start`, at or
after the far edge give `range.end`; otherwise the position's fraction of
the track is quantized by `step` and clamped by `min` to `range.end`. -/
def locate (d : Divider) (bounds : Rectangle) (cursor_position : Point) :
    Option ℚ :=
  match d.direction with
  | Direction.Horizontal =>
      if cursor_position.x ≤ bounds.x then
        some d.range_start
      else if cursor_position.x ≥ bounds.x + bounds.width then
        some d.range_end
      else
        let percent := (cursor_position.x - bounds.x) / bounds.width
        let steps : ℤ := rustRound (percent * (d.range_end - d.range_start) / d.step)
        let value := (steps : ℚ) * d.step + d.range_start
        some (min value d.range_end)
  | Direction.Vertical =>
      if cursor_position.y ≤ bounds.y then
        some d.range_start
      else if cursor_position.y ≥ bounds.y + bounds.height then
        some d.range_end
      else
        let percent := (cursor_position.y - bounds.y) / bounds.height
        let steps : ℤ := rustRound (percent * (d.range_end - d.range_start) / d.step)
        let value := (steps : ℚ) * d.step + d.range_start
        some (min value d.range_end)

/-- The `change` closure of `on_event`: publishes the change notification
and updates the stored value only when the new value differs from the old
by more than `f32::EPSILON`. -/
def change (d : Divider) (new_value : ℚ) : Divider × List Msg :=
  if |d.value - new_value| > EPSILON then
    ({ d with value := new_value }, [Msg.change d.index new_value])
  else
    (d, [])

/-- The transient drag state persisted in the widget tree. -/
structure State where
  is_dragging : Bool
deriving DecidableEq, Repr

/-- Status `event::Status` returned from `on_event`. -/
inductive EventStatus where
  | Captured
  | Ignored
deriving DecidableEq, Repr

/-- The events `on_event` distinguishes.  `ButtonPressed` stands for
`Mouse::ButtonPressed(Left)` / `Touch::FingerPressed`; `ButtonReleased`
for `Mouse::ButtonReleased(Left)` / `Touch::FingerLifted`; `FingerLost`
for `Touch::FingerLost` (pointer lost), which shares the release arm;
`CursorMoved` for `Mouse::CursorMoved` / `Touch::FingerMoved`; `Other`
for every event falling into the wildcard arm. -/
inductive WEvent where
  | ButtonPressed
  | ButtonReleased
  | FingerLost
  | CursorMoved
  | Other
deriving DecidableEq, Repr

/-- The handle hit-rectangle computed in `on_event`'s press arm (and,
with the identical formula, in `mouse_interaction`): the layout bounds
with the drag-axis origin shifted by the raw stored value and the extents
replaced by the handle extents. -/
def handle_bounds (d : Divider) (bounds : Rectangle) : Rectangle :=
  match d.direction with
  | Direction.Horizontal =>
      { bounds with
        x := bounds.x + d.value
        width := d.handle_width
        height := d.handle_height }
  | Direction.Vertical =>
      { bounds with
        y := bounds.y + d.value
        width := d.handle_width
        height := d.handle_height }

/-- The outcome of one `on_event` call: the (possibly value-updated)
widget, the new drag state, the messages published to the shell, and the
event status. -/
structure EventResult where
  divider : Divider
  state : State
  published : List Msg
  status : EventStatus
deriving DecidableEq, Repr

/-- The divider's `Widget::on_event`, as one synchronous step. -/
def on_event (d : Divider) (st : State) (ev : WEvent) (bounds : Rectangle)
    (cursor : Option Point) : EventResult :=
  match ev with
  | WEvent.ButtonPressed =>
      match position_over cursor (handle_bounds d bounds) with
      | some cursor_position =>
          let res :=
            match locate d bounds cursor_position with
            | some nv => change d nv
            | none => (d, [])
          { divider := res.1
            state := { is_dragging := true }
            published := res.2
            status := EventStatus.Captured }
      | none =>
          { divider := d
            state := st
            published := []
            status := EventStatus.Ignored }
  | WEvent.ButtonReleased | WEvent.FingerLost =>
      if st.is_dragging then
        { divider := d
          state := { is_dragging := false }
          published := if d.on_release then [Msg.release] else []
          status := EventStatus.Captured }
      else
        { divider := d
          state := st
          published := []
          status := EventStatus.Ignored }
  | WEvent.CursorMoved =>
      if st.is_dragging then
        let res :=
          match cursor with
          | some p =>
              match locate d bounds p with
              | some nv => change d nv
              | none => (d, [])
          | none => (d, [])
        { divider := res.1
          state := st
          published := res.2
          status := EventStatus.Captured }
      else
        { divider := d
          state := st
          published := []
          status := EventStatus.Ignored }
  | WEvent.Other =>
      { divider := d
        state := st
        published := []
        status := EventStatus.Ignored }

/-- The draw-time offset along the drag axis (`draw`): zero for a
degenerate range, otherwise proportional to the value's position in the
range; note the vertical case scales by `bounds.height - handle_height`
while the horizontal case scales by the full `bounds.width`. -/
def draw_offset (d : Divider) (bounds : Rectangle) : ℚ :=
  if d.range_start ≥ d.range_end then 0
  else
    match d.direction with
    | Direction.Horizontal =>
        bounds.width * (d.value - d.range_start) / (d.range_end - d.range_start)
    | Direction.Vertical =>
        (bounds.height - d.handle_height) * (d.value - d.range_start) /
          (d.range_end - d.range_start)

/-- The handle rectangle `draw` fills. -/
def draw_rect (d : Divider) (bounds : Rectangle) : Rectangle :=
  match d.direction with
  | Direction.Horizontal =>
      { x := bounds.x + draw_offset d bounds
        y := bounds.y
        width := d.handle_width
        height := d.handle_height }
  | Direction.Vertical =>
      { x := bounds.x
        y := bounds.y + draw_offset d bounds
        width := d.handle_width
        height := d.handle_height }

/-- The resize-cursor hint (`mouse_interaction`). -/
inductive Interaction where
  | ResizingHorizontally
  | ResizingVertically
  | Idle
deriving DecidableEq, Repr

/-- Model of `Widget::mouse_interaction`: reports a resize hint while dragging or
hovering the handle hit-rectangle (the same rectangle the press arm
hit-tests). -/
def mouse_interaction (d : Divider) (st : State) (bounds : Rectangle)
    (cursor : Option Point) : Interaction :=
  let is_mouse_over := (position_over cursor (handle_bounds d bounds)).isSome
  if st.is_dragging || is_mouse_over then
    match d.direction with
    | Direction.Horizontal => Interaction.ResizingHorizontally
    | Direction.Vertical => Interaction.ResizingVertically
  else
    Interaction.Idle

/-- The coordinate of a point on the drag axis. -/
def axis_coord : Direction → Point → ℚ
  | Direction.Horizontal, p => p.x
  | Direction.Vertical, p => p.y

/-- The track origin on the drag axis. -/
def axis_origin : Direction → Rectangle → ℚ
  | Direction.Horizontal, b => b.x
  | Direction.Vertical, b => b.y

/-- The track extent on the drag axis. -/
def axis_extent : Direction → Rectangle → ℚ
  | Direction.Horizontal, b => b.width
  | Direction.Vertical, b => b.height

end IcedDivider

namespace IcedDivider

/-! ### Helper lemmas -/

lemma rustRound_nonneg {q : ℚ} (h : 0 ≤ q) : 0 ≤ rustRound q := by
  unfold rustRound
  rw [if_neg (not_lt.mpr h), round_eq]
  exact Int.le_floor.mpr (by push_cast; linarith)

lemma locate_horizontal (d : Divider) (bounds : Rectangle) (p : Point)
    (hd : d.direction = Direction.Horizontal) :
    locate d bounds p =
      if p.x ≤ bounds.x then some d.range_start
      else if bounds.x + bounds.width ≤ p.x then some d.range_end
      else some (min ((rustRound ((p.x - bounds.x) / bounds.width *
          (d.range_end - d.range_start) / d.step) : ℚ) * d.step + d.range_start)
        d.range_end) := by
  simp only [locate, hd, ge_iff_le]

lemma locate_vertical (d : Divider) (bounds : Rectangle) (p : Point)
    (hd : d.direction = Direction.Vertical) :
    locate d bounds p =
      if p.y ≤ bounds.y then some d.range_start
      else if bounds.y + bounds.height ≤ p.y then some d.range_end
      else some (min ((rustRound ((p.y - bounds.y) / bounds.height *
          (d.range_end - d.range_start) / d.step) : ℚ) * d.step + d.range_start)
        d.range_end) := by
  simp only [locate, hd, ge_iff_le]

/-- Any value `locate` returns lies inside the (well-formed) range. -/
lemma locate_mem {d : Divider} {bounds : Rectangle} {p : Point} {nv : ℚ}
    (hr : d.range_start ≤ d.range_end) (hs : 0 < d.step)
    (h : locate d bounds p = some nv) :
    d.range_start ≤ nv ∧ nv ≤ d.range_end := by
  have key : ∀ c o w : ℚ,
      (if c ≤ o then some d.range_start
       else if o + w ≤ c then some d.range_end
       else some (min ((rustRound ((c - o) / w *
           (d.range_end - d.range_start) / d.step) : ℚ) * d.step + d.range_start)
         d.range_end)) = some nv →
      d.range_start ≤ nv ∧ nv ≤ d.range_end := by
    intro c o w hh
    split_ifs at hh with h1 h2
    · rw [Option.some.injEq] at hh
      exact ⟨le_of_eq hh, hh ▸ hr⟩
    · rw [Option.some.injEq] at hh
      exact ⟨hh ▸ hr, le_of_eq hh.symm⟩
    · rw [Option.some.injEq] at hh
      subst hh
      have hc : 0 < c - o := by
        have := not_le.mp h1
        linarith
      have hw : c - o < w := by
        have := not_le.mp h2
        linarith
      have hpercent : 0 ≤ (c - o) / w := div_nonneg hc.le (by linarith)
      have harg : 0 ≤ (c - o) / w * (d.range_end - d.range_start) / d.step :=
        div_nonneg (mul_nonneg hpercent (by linarith)) hs.le
      have hround : (0 : ℚ) ≤ (rustRound ((c - o) / w *
          (d.range_end - d.range_start) / d.step) : ℚ) := by
        exact_mod_cast rustRound_nonneg harg
      refine ⟨le_min ?_ hr, min_le_right _ _⟩
      nlinarith
  cases hdir : d.direction
  · rw [locate_horizontal d bounds p hdir] at h
    exact key p.x bounds.x bounds.width h
  · rw [locate_vertical d bounds p hdir] at h
    exact key p.y bounds.y bounds.height h

/-- The `locate` mapping never inspects the stored value. -/
lemma locate_value_irrel (d : Divider) (v : ℚ) (bounds : Rectangle) (p : Point) :
    locate { d with value := v } bounds p = locate d bounds p := rfl

end IcedDivider

namespace IcedDivider

/-! ### Claim theorems -/

/-- C10: `locate` is total at its interface: for every cursor position,
direction, range, step and bounds it returns `some` value — the `none`
case of its `Option` result is unreachable in all branches. -/
theorem locate_total (d : Divider) (bounds : Rectangle) (p : Point) :
    (locate d bounds p).isSome = true := by
  cases hdir : d.direction
  · rw [locate_horizontal d bounds p hdir]
    split_ifs <;> rfl
  · rw [locate_vertical d bounds p hdir]
    split_ifs <;> rfl

/-- C1: for a range with `start ≤ end`, positive step and positive track
extent, `locate` maps a drag-axis coordinate at or before the track's near
edge to `range.start`, at or after the far edge to `range.end`, and an
interior coordinate to
`min (round (percent * (end - start) / step) * step + start) end` with
`percent = (coord - trackOrigin) / trackExtent`; in particular for range
`0..=100` with step `10` a pointer at 24% of the track maps to `20`. -/
theorem locate_spec (d : Divider) (bounds : Rectangle) (p : Point)
    (hr : d.range_start ≤ d.range_end) (hs : 0 < d.step)
    (hw : 0 < axis_extent d.direction bounds) :
    (axis_coord d.direction p ≤ axis_origin d.direction bounds →
      locate d bounds p = some d.range_start) ∧
    (axis_origin d.direction bounds + axis_extent d.direction bounds ≤
        axis_coord d.direction p →
      locate d bounds p = some d.range_end) ∧
    (axis_origin d.direction bounds < axis_coord d.direction p →
      axis_coord d.direction p <
        axis_origin d.direction bounds + axis_extent d.direction bounds →
      locate d bounds p = some (min
        ((rustRound ((axis_coord d.direction p - axis_origin d.direction bounds) /
            axis_extent d.direction bounds * (d.range_end - d.range_start) /
            d.step) : ℚ) * d.step + d.range_start)
        d.range_end)) ∧
    locate ((Divider.new 0 0 0 100 4 21).set_step 10) ⟨0, 0, 100, 21⟩ ⟨24, 5⟩ =
      some 20 := by
  have hcon : locate ((Divider.new 0 0 0 100 4 21).set_step 10)
      ⟨0, 0, 100, 21⟩ ⟨24, 5⟩ = some 20 := by
    simp only [locate, Divider.new, Divider.set_step]
    norm_num [rustRound, round_eq]
  refine ⟨?_, ?_, ?_, hcon⟩ <;> cases hdir : d.direction <;>
    simp only [hdir, axis_coord, axis_origin, axis_extent] at hw ⊢
  · intro h
    rw [locate_horizontal d bounds p hdir, if_pos h]
  · intro h
    rw [locate_vertical d bounds p hdir, if_pos h]
  · intro h
    rw [locate_horizontal d bounds p hdir,
      if_neg (not_le.mpr (by linarith)), if_pos h]
  · intro h
    rw [locate_vertical d bounds p hdir,
      if_neg (not_le.mpr (by linarith)), if_pos h]
  · intro h1 h2
    rw [locate_horizontal d bounds p hdir,
      if_neg (not_le.mpr h1), if_neg (not_le.mpr h2)]
  · intro h1 h2
    rw [locate_vertical d bounds p hdir,
      if_neg (not_le.mpr h1), if_neg (not_le.mpr h2)]

/-- Witness for C1: the near-edge case of `locate_spec` at a concrete
divider and cursor evaluates to `range.start = 0`. -/
theorem locate_spec_witness :
    locate ((Divider.new 0 0 0 100 4 21).set_step 10) ⟨0, 0, 100, 21⟩ ⟨-3, 5⟩
      = some 0 := by
  have h := (locate_spec ((Divider.new 0 0 0 100 4 21).set_step 10)
      ⟨0, 0, 100, 21⟩ ⟨-3, 5⟩
      (by norm_num [Divider.new, Divider.set_step])
      (by norm_num [Divider.new, Divider.set_step])
      (by norm_num [Divider.new, Divider.set_step, axis_extent])).1
    (by norm_num [Divider.new, Divider.set_step, axis_coord, axis_origin])
  simpa [Divider.new, Divider.set_step] using h

end IcedDivider

namespace IcedDivider

/-- C2 counterexample: for the degenerate range `1..=0` (start > end) the
constructor stores `0 = range.end`, not `1 = range.start` as claimed: the
value is first raised to `range.start = 1` and then the `value ≤ range.end`
check lowers it to `range.end = 0`. -/
theorem new_degenerate_counterexample :
    (0 : ℚ) < 1 ∧ (Divider.new 0 (-5) 1 0 1 1).value = 0 ∧
      (Divider.new 0 (-5) 1 0 1 1).value ≠ 1 := by
  norm_num [Divider.new]

/-- C2 (amended): construction clamps the value into `[s, e]` whenever
`s ≤ e`, never rejecting out-of-range input; in the degenerate case
`s > e` the stored value equals `e` (`range.end`), because the second
clamp (`value ≤ range.end`) runs after the first and always fires then. -/
theorem new_clamps_value (index : ℕ) (v s e hw hh : ℚ) :
    (s ≤ e → s ≤ (Divider.new index v s e hw hh).value ∧
      (Divider.new index v s e hw hh).value ≤ e) ∧
    (e < s → (Divider.new index v s e hw hh).value = e) := by
  have hval : (Divider.new index v s e hw hh).value =
      if (if v ≥ s then v else s) ≤ e then (if v ≥ s then v else s) else e := rfl
  constructor
  · intro h
    rw [hval]
    split_ifs <;> constructor <;> linarith
  · intro h
    rw [hval]
    split_ifs <;> linarith

/-- Witness for C2 (amended): constructing with value `250` and range
`0..=100` stores `100`, inside the range. -/
theorem new_clamps_value_witness :
    (0 : ℚ) ≤ 100 ∧ (0 : ℚ) ≤ (Divider.new 0 250 0 100 4 21).value ∧
      (Divider.new 0 250 0 100 4 21).value ≤ 100 :=
  ⟨by norm_num, (new_clamps_value 0 250 0 100 4 21).1 (by norm_num)⟩

/-- C3 counterexample: for a horizontal divider with value `50`, range
`0..=100` and track width `200`, the press-time hit rectangle sits at
drag-axis offset `50` (the raw value) while the drawn handle sits at
offset `200 * 50 / 100 = 100`; the two rectangles differ. -/
theorem handle_draw_mismatch :
    handle_bounds
      { index := 0, value := 50, range_start := 0, range_end := 100,
        handle_width := 4, handle_height := 20, step := 1,
        on_release := false, direction := Direction.Horizontal }
      ⟨0, 0, 200, 20⟩ ≠
    draw_rect
      { index := 0, value := 50, range_start := 0, range_end := 100,
        handle_width := 4, handle_height := 20, step := 1,
        on_release := false, direction := Direction.Horizontal }
      ⟨0, 0, 200, 20⟩ := by
  simp only [handle_bounds, draw_rect, draw_offset]
  norm_num [Rectangle.mk.injEq]

/-- C3 (amended): the hit-test rectangle's drag-axis offset from the track
origin is the raw stored value (in both orientations), while the draw-time
offset is `trackExtent * (value - start) / (end - start)` horizontally and
`(trackExtent - handleExtent) * (value - start) / (end - start)` vertically
(`0` when `start ≥ end`); the two rectangles coincide in the horizontal
case when `start = 0` and `end = trackExtent`, but not in general. -/
theorem handle_offset_characterization (d : Divider) (bounds : Rectangle) :
    (d.direction = Direction.Horizontal →
      (handle_bounds d bounds).x = bounds.x + d.value ∧
      (d.range_start < d.range_end →
        (draw_rect d bounds).x = bounds.x +
          bounds.width * (d.value - d.range_start) /
            (d.range_end - d.range_start))) ∧
    (d.direction = Direction.Vertical →
      (handle_bounds d bounds).y = bounds.y + d.value ∧
      (d.range_start < d.range_end →
        (draw_rect d bounds).y = bounds.y +
          (bounds.height - d.handle_height) * (d.value - d.range_start) /
            (d.range_end - d.range_start))) ∧
    (¬ d.range_start < d.range_end → draw_offset d bounds = 0) ∧
    (d.direction = Direction.Horizontal → d.range_start = 0 →
      d.range_end = bounds.width → 0 < bounds.width →
      handle_bounds d bounds = draw_rect d bounds) := by
  refine ⟨?_, ?_, ?_, ?_⟩
  · intro hd
    refine ⟨by simp [handle_bounds, hd], ?_⟩
    intro hlt
    simp [draw_rect, draw_offset, hd, not_le.mpr hlt]
  · intro hd
    refine ⟨by simp [handle_bounds, hd], ?_⟩
    intro hlt
    simp [draw_rect, draw_offset, hd, not_le.mpr hlt]
  · intro hge
    simp [draw_offset, le_of_not_lt hge]
  · intro hd hs0 hse hpos
    have hne : bounds.width ≠ 0 := ne_of_gt hpos
    have hlt : d.range_start < d.range_end := by rw [hs0, hse]; exact hpos
    have hoff : draw_offset d bounds = d.value := by
      simp only [draw_offset, ge_iff_le, not_le.mpr hlt, if_false, hd]
      rw [hs0, hse]
      field_simp
    ext <;> simp [handle_bounds, draw_rect, hd, hoff]

/-- Witness for C3 (amended): for a horizontal divider with range equal
to `0..=trackWidth` the hit rectangle and the drawn rectangle agree. -/
theorem handle_offset_characterization_witness :
    handle_bounds (Divider.new 0 100 0 400 4 21) ⟨0, 0, 400, 21⟩ =
      draw_rect (Divider.new 0 100 0 400 4 21) ⟨0, 0, 400, 21⟩ :=
  (handle_offset_characterization (Divider.new 0 100 0 400 4 21)
    ⟨0, 0, 400, 21⟩).2.2.2 rfl (by norm_num [Divider.new])
    (by norm_num [Divider.new]) (by norm_num)

/-- C8: `Divider::step` stores a non-positive step unchanged — there is no
rejection and no substitution by a minimal positive step, so the zero step
reaches `locate`'s division `percent * (end - start) / step` unguarded. -/
theorem step_unguarded :
    ((Divider.new 0 0 0 100 4 21).set_step 0).step = 0 ∧
    ((Divider.new 0 0 0 100 4 21).set_step 0).step ≤ 0 := by
  norm_num [Divider.new, Divider.set_step]

end IcedDivider

namespace IcedDivider

/-- C4: a press with the cursor over the handle hit-rectangle sets the
drag state to `Dragging`, immediately evaluates `locate` at the cursor
and, exactly when the result differs from the stored value by more than
`f32::EPSILON`, publishes the change notification and updates the stored
value; the event is `Captured`.  A press with the cursor not over the
handle hit-rectangle is returned `Ignored` with nothing published and
nothing modified, so it can pass through to underlying widgets. -/
theorem press_behavior (d : Divider) (st : State) (bounds : Rectangle)
    (cursor : Option Point) (cp : Point) (nv : ℚ) :
    (position_over cursor (handle_bounds d bounds) = some cp →
      locate d bounds cp = some nv →
      (on_event d st WEvent.ButtonPressed bounds cursor).state.is_dragging = true ∧
      (on_event d st WEvent.ButtonPressed bounds cursor).status =
        EventStatus.Captured ∧
      (EPSILON < |d.value - nv| →
        (on_event d st WEvent.ButtonPressed bounds cursor).published =
          [Msg.change d.index nv] ∧
        (on_event d st WEvent.ButtonPressed bounds cursor).divider.value = nv) ∧
      (¬ EPSILON < |d.value - nv| →
        (on_event d st WEvent.ButtonPressed bounds cursor).published = [] ∧
        (on_event d st WEvent.ButtonPressed bounds cursor).divider = d)) ∧
    (position_over cursor (handle_bounds d bounds) = none →
      (on_event d st WEvent.ButtonPressed bounds cursor) =
        { divider := d, state := st, published := [],
          status := EventStatus.Ignored }) := by
  constructor
  · intro hpo hloc
    simp only [on_event, hpo, hloc, change, gt_iff_lt]
    split_ifs with h <;> simp [h]
  · intro hpo
    simp only [on_event, hpo]

/-- Witness for C4: pressing at x = 101 while the handle covers
x ∈ [100, 104) drags the divider and publishes the change to `101`. -/
theorem press_behavior_witness :
    (on_event (Divider.new 0 100 0 400 4 21) ⟨false⟩ WEvent.ButtonPressed
        ⟨0, 0, 400, 21⟩ (some ⟨101, 5⟩)).published = [Msg.change 0 101] := by
  have hpo : position_over (some (⟨101, 5⟩ : Point))
      (handle_bounds (Divider.new 0 100 0 400 4 21) ⟨0, 0, 400, 21⟩) =
      some ⟨101, 5⟩ := by
    simp only [position_over, handle_bounds, Rectangle.contains, Divider.new]
    norm_num
  have hloc : locate (Divider.new 0 100 0 400 4 21) ⟨0, 0, 400, 21⟩ ⟨101, 5⟩ =
      some 101 := by
    simp only [locate, Divider.new]
    norm_num [rustRound, round_eq]
  have h := ((press_behavior (Divider.new 0 100 0 400 4 21) ⟨false⟩
      ⟨0, 0, 400, 21⟩ (some ⟨101, 5⟩) ⟨101, 5⟩ 101).1 hpo hloc).2.2.1
    (by norm_num [Divider.new, EPSILON])
  simpa [Divider.new] using h.1

/-- C5: a release or pointer-lost event while `Dragging` returns the state
to `Idle`, publishes the configured `on_release` message exactly once (and
nothing when none is configured), leaves the divider unmodified, and is
`Captured`; while already `Idle` it publishes nothing and is `Ignored`. -/
theorem release_behavior (d : Divider) (st : State) (bounds : Rectangle)
    (cursor : Option Point) (ev : WEvent)
    (hev : ev = WEvent.ButtonReleased ∨ ev = WEvent.FingerLost) :
    (st.is_dragging = true →
      (on_event d st ev bounds cursor).state.is_dragging = false ∧
      (on_event d st ev bounds cursor).status = EventStatus.Captured ∧
      (on_event d st ev bounds cursor).divider = d ∧
      (d.on_release = true →
        (on_event d st ev bounds cursor).published = [Msg.release]) ∧
      (d.on_release = false →
        (on_event d st ev bounds cursor).published = [])) ∧
    (st.is_dragging = false →
      (on_event d st ev bounds cursor) =
        { divider := d, state := st, published := [],
          status := EventStatus.Ignored }) := by
  rcases hev with rfl | rfl <;>
    refine ⟨fun h => ?_, fun h => ?_⟩ <;> simp [on_event, h]

/-- Witness for C5: a release while dragging with `on_release` configured
publishes exactly the release message. -/
theorem release_behavior_witness :
    (on_event ((Divider.new 0 100 0 400 4 21).set_on_release) ⟨true⟩
        WEvent.ButtonReleased ⟨0, 0, 400, 21⟩ none).published =
      [Msg.release] :=
  ((release_behavior ((Divider.new 0 100 0 400 4 21).set_on_release) ⟨true⟩
      ⟨0, 0, 400, 21⟩ none WEvent.ButtonReleased (Or.inl rfl)).1 rfl).2.2.2.1 rfl

end IcedDivider

namespace IcedDivider

/-- C6: while `Dragging`, a move event evaluates `locate` at the cursor
and publishes the change notification exactly when the located value
differs from the stored value by more than `f32::EPSILON`; the event is
`Captured` either way, and two consecutive moves locating to the same
(changed) value publish exactly one change notification in total. -/
theorem change_suppression (d : Divider) (bounds : Rectangle)
    (p1 p2 : Point) (nv : ℚ)
    (h1 : locate d bounds p1 = some nv) :
    (Msg.change d.index nv ∈
        (on_event d ⟨true⟩ WEvent.CursorMoved bounds (some p1)).published ↔
      EPSILON < |d.value - nv|) ∧
    (on_event d ⟨true⟩ WEvent.CursorMoved bounds (some p1)).status =
      EventStatus.Captured ∧
    (EPSILON < |d.value - nv| →
      locate d bounds p2 = some nv →
      ((on_event d ⟨true⟩ WEvent.CursorMoved bounds (some p1)).published ++
        (on_event
          (on_event d ⟨true⟩ WEvent.CursorMoved bounds (some p1)).divider
          ⟨true⟩ WEvent.CursorMoved bounds (some p2)).published) =
        [Msg.change d.index nv]) := by
  refine ⟨?_, ?_, ?_⟩
  · constructor
    · intro hmem
      by_contra h
      simp [on_event, h1, change, h] at hmem
    · intro h
      simp [on_event, h1, change, h]
  · simp [on_event]
  · intro hc h2
    have h2' : locate { d with value := nv } bounds p2 = some nv := by
      rw [locate_value_irrel]; exact h2
    have hne : ¬ EPSILON < (0 : ℚ) := by norm_num [EPSILON]
    have hfirst : on_event d ⟨true⟩ WEvent.CursorMoved bounds (some p1) =
        { divider := { d with value := nv }, state := ⟨true⟩,
          published := [Msg.change d.index nv],
          status := EventStatus.Captured } := by
      simp [on_event, h1, change, hc]
    rw [hfirst]
    simp [on_event, h2', change, hne]

/-- Witness for C6: moving twice to x = 150 while dragging from value 100
publishes exactly one change notification carrying `150`. -/
theorem change_suppression_witness :
    ((on_event (Divider.new 0 100 0 400 4 21) ⟨true⟩ WEvent.CursorMoved
        ⟨0, 0, 400, 21⟩ (some ⟨150, 5⟩)).published ++
      (on_event
        (on_event (Divider.new 0 100 0 400 4 21) ⟨true⟩ WEvent.CursorMoved
          ⟨0, 0, 400, 21⟩ (some ⟨150, 5⟩)).divider
        ⟨true⟩ WEvent.CursorMoved ⟨0, 0, 400, 21⟩ (some ⟨150, 5⟩)).published) =
      [Msg.change 0 150] := by
  have hloc : locate (Divider.new 0 100 0 400 4 21) ⟨0, 0, 400, 21⟩ ⟨150, 5⟩ =
      some 150 := by
    simp only [locate, Divider.new]
    norm_num [rustRound, round_eq]
  have h := (change_suppression (Divider.new 0 100 0 400 4 21) ⟨0, 0, 400, 21⟩
      ⟨150, 5⟩ ⟨150, 5⟩ 150 hloc).2.2 (by norm_num [Divider.new, EPSILON]) hloc
  simpa [Divider.new] using h

end IcedDivider

namespace IcedDivider

/-- Every `on_event` call either leaves the divider untouched and
publishes no change notification, or some located value lies beyond
epsilon of the stored one, the stored value is updated to it, and exactly
that one change notification is published. -/
lemma on_event_change_characterization (d : Divider) (st : State)
    (ev : WEvent) (bounds : Rectangle) (cursor : Option Point) :
    ((on_event d st ev bounds cursor).divider = d ∧
      ((on_event d st ev bounds cursor).published.filter Msg.isChange) = []) ∨
    (∃ p nv, locate d bounds p = some nv ∧ EPSILON < |d.value - nv| ∧
      (on_event d st ev bounds cursor).divider = { d with value := nv } ∧
      (on_event d st ev bounds cursor).published = [Msg.change d.index nv]) := by
  cases ev
  case ButtonPressed =>
    cases hpo : position_over cursor (handle_bounds d bounds)
    case none => left; simp [on_event, hpo]
    case some cp =>
      cases hloc : locate d bounds cp
      case none => left; simp [on_event, hpo, hloc]
      case some nv =>
        by_cases h : EPSILON < |d.value - nv|
        · right
          exact ⟨cp, nv, hloc, h, by simp [on_event, hpo, hloc, change, h],
            by simp [on_event, hpo, hloc, change, h]⟩
        · left
          simp [on_event, hpo, hloc, change, h]
  case ButtonReleased =>
    left
    simp only [on_event]
    split_ifs <;> simp [Msg.isChange]
  case FingerLost =>
    left
    simp only [on_event]
    split_ifs <;> simp [Msg.isChange]
  case CursorMoved =>
    by_cases hdrag : st.is_dragging = true
    · cases cursor with
      | none => left; simp [on_event, hdrag]
      | some p =>
        cases hloc : locate d bounds p with
        | none => left; simp [on_event, hdrag, hloc]
        | some nv =>
          by_cases h : EPSILON < |d.value - nv|
          · right
            exact ⟨p, nv, hloc, h, by simp [on_event, hdrag, hloc, change, h],
              by simp [on_event, hdrag, hloc, change, h]⟩
          · left
            simp [on_event, hdrag, hloc, change, h]
    · left
      simp [on_event, hdrag]
  case Other => left; simp [on_event]

/-- C7: for a divider with `range.start ≤ range.end` and positive step the
invariant `range.start ≤ value ≤ range.end` holds after construction and
is preserved by every event-processing step. -/
theorem value_invariant :
    (∀ (index : ℕ) (v s e hw hh : ℚ), s ≤ e →
      s ≤ (Divider.new index v s e hw hh).value ∧
        (Divider.new index v s e hw hh).value ≤ e) ∧
    (∀ (d : Divider) (st : State) (ev : WEvent) (bounds : Rectangle)
        (cursor : Option Point),
      d.range_start ≤ d.range_end → 0 < d.step →
      d.range_start ≤ d.value → d.value ≤ d.range_end →
      d.range_start ≤ (on_event d st ev bounds cursor).divider.value ∧
        (on_event d st ev bounds cursor).divider.value ≤ d.range_end) := by
  constructor
  · intro index v s e hw hh h
    have hval : (Divider.new index v s e hw hh).value =
        if (if v ≥ s then v else s) ≤ e then (if v ≥ s then v else s) else e :=
      rfl
    rw [hval]
    split_ifs <;> constructor <;> linarith
  · intro d st ev bounds cursor hr hs hv1 hv2
    rcases on_event_change_characterization d st ev bounds cursor with
      ⟨hd, _⟩ | ⟨p, nv, hloc, _, hd, _⟩
    · rw [hd]
      exact ⟨hv1, hv2⟩
    · rw [hd]
      exact locate_mem hr hs hloc

/-- Witness for C7: a drag move to x = 150 keeps the value inside
`[0, 400]`. -/
theorem value_invariant_witness :
    (0 : ℚ) ≤ (on_event (Divider.new 0 100 0 400 4 21) ⟨true⟩
        WEvent.CursorMoved ⟨0, 0, 400, 21⟩ (some ⟨150, 5⟩)).divider.value ∧
      (on_event (Divider.new 0 100 0 400 4 21) ⟨true⟩ WEvent.CursorMoved
        ⟨0, 0, 400, 21⟩ (some ⟨150, 5⟩)).divider.value ≤ 400 := by
  have h := value_invariant.2 (Divider.new 0 100 0 400 4 21) ⟨true⟩
    WEvent.CursorMoved ⟨0, 0, 400, 21⟩ (some ⟨150, 5⟩)
    (by norm_num [Divider.new]) (by norm_num [Divider.new])
    (by norm_num [Divider.new]) (by norm_num [Divider.new])
  simpa [Divider.new] using h

/-- C9: in any single `on_event` call, only the stored value field of the
divider may change; it changes exactly when a change notification is
published, and the published payload equals the new stored value; the
release/pointer-lost transition leaves the divider unchanged, and any
`Ignored` event leaves it unchanged and publishes nothing. -/
theorem value_change_iff_publish (d : Divider) (st : State) (ev : WEvent)
    (bounds : Rectangle) (cursor : Option Point) :
    ((on_event d st ev bounds cursor).divider =
      { d with value := (on_event d st ev bounds cursor).divider.value }) ∧
    ((on_event d st ev bounds cursor).divider.value = d.value →
      ((on_event d st ev bounds cursor).published.filter Msg.isChange) = []) ∧
    ((on_event d st ev bounds cursor).divider.value ≠ d.value →
      (on_event d st ev bounds cursor).published =
        [Msg.change d.index (on_event d st ev bounds cursor).divider.value]) ∧
    ((ev = WEvent.ButtonReleased ∨ ev = WEvent.FingerLost) →
      (on_event d st ev bounds cursor).divider = d) ∧
    ((on_event d st ev bounds cursor).status = EventStatus.Ignored →
      (on_event d st ev bounds cursor).divider = d ∧
        (on_event d st ev bounds cursor).published = []) := by
  have hrel : (ev = WEvent.ButtonReleased ∨ ev = WEvent.FingerLost) →
      (on_event d st ev bounds cursor).divider = d := by
    rintro (rfl | rfl) <;> simp only [on_event] <;> split_ifs <;> rfl
  have hign : (on_event d st ev bounds cursor).status = EventStatus.Ignored →
      (on_event d st ev bounds cursor).divider = d ∧
        (on_event d st ev bounds cursor).published = [] := by
    intro hst
    cases ev
    case ButtonPressed =>
      cases hpo : position_over cursor (handle_bounds d bounds)
      case none => simp [on_event, hpo]
      case some cp =>
        exfalso
        simp [on_event, hpo] at hst
    case ButtonReleased =>
      by_cases hdrag : st.is_dragging = true
      · exfalso; simp [on_event, hdrag] at hst
      · simp [on_event, hdrag]
    case FingerLost =>
      by_cases hdrag : st.is_dragging = true
      · exfalso; simp [on_event, hdrag] at hst
      · simp [on_event, hdrag]
    case CursorMoved =>
      by_cases hdrag : st.is_dragging = true
      · exfalso; simp [on_event, hdrag] at hst
      · simp [on_event, hdrag]
    case Other => simp [on_event]
  rcases on_event_change_characterization d st ev bounds cursor with
    ⟨hd, hf⟩ | ⟨p, nv, hloc, heps, hd, hpub⟩
  · exact ⟨by rw [hd], fun _ => hf,
      fun hne => absurd (by rw [hd]) hne, hrel, hign⟩
  · have hne' : nv ≠ d.value := by
      intro h
      rw [h, sub_self, abs_zero] at heps
      norm_num [EPSILON] at heps
    refine ⟨by rw [hd], ?_, ?_, hrel, hign⟩
    · intro heq
      rw [hd] at heq
      exact absurd heq hne'
    · intro _
      rw [hpub, hd]

/-- Witness for C9: a release while dragging leaves the divider record
unchanged. -/
theorem value_change_iff_publish_witness :
    (on_event (Divider.new 0 100 0 400 4 21) ⟨true⟩ WEvent.ButtonReleased
        ⟨0, 0, 400, 21⟩ none).divider = Divider.new 0 100 0 400 4 21 :=
  (value_change_iff_publish (Divider.new 0 100 0 400 4 21) ⟨true⟩
    WEvent.ButtonReleased ⟨0, 0, 400, 21⟩ none).2.2.2.1 (Or.inl rfl)

end IcedDivider
